import Mathlib

/-
  Verification of the episodic meta-learning training loop of
  maml_trainer_copy.py: the sampler, the prototype initializer, the
  inner-loop fast adaptation, the outer gradient combination and the
  epoch orchestration, shallowly embedded as executable Lean functions.
-/

namespace ATCS

/-- Mini-batch of tokenized examples as produced by the per-class data
loaders: each of the three sequence fields is a list of rows of token ids
(a rectangular tensor in the source), `labels` a list of class labels. -/
structure Batch where
  input_ids : List (List Nat)
  token_type_ids : List (List Nat)
  attention_mask : List (List Nat)
  labels : List Nat
deriving DecidableEq, Repr

/-- Label under which a drawn batch is keyed: `b["labels"][0].item()`
(source line 66; loader batches are nonempty, so the default is unused). -/
def labelOf (b : Batch) : Nat := b.labels.headD 0

/-- Python dict assignment `d[k] = v`: replace the entry if the key is
already present, append a new entry otherwise. -/
def upsert : List (Nat × Batch) → Nat → Batch → List (Nat × Batch)
  | [], k, v => [(k, v)]
  | (k0, v0) :: t, k, v =>
      if k0 = k then (k, v) :: t else (k0, v0) :: upsert t k v

/-- Result of one `sample_support` call: the fresh dict built by the call,
the advanced per-class loaders, and the exhaustion flag of the
`(task, "support")` slot after the call. -/
structure SampleOut where
  dict : List (Nat × Batch)
  loaders : List (List Batch)
  exhausted : Bool
deriving DecidableEq, Repr

/-- Body of `Sampler.sample_support` (source lines 59-70): walk the
per-class loaders in order, draw each loader's next batch into the dict
under the batch's first label, and on an exhausted loader set the
exhaustion flag and contribute nothing for it.  A loader is modelled as
the list of its remaining batches; drawing pops the head. -/
def sampleSupportAux : List (Nat × Batch) → Bool → List (List Batch) → SampleOut
  | d, exh, [] => { dict := d, loaders := [], exhausted := exh }
  | d, _, [] :: ls =>
      let r := sampleSupportAux d true ls
      { r with loaders := [] :: r.loaders }
  | d, exh, (b :: rest) :: ls =>
      let r := sampleSupportAux (upsert d (labelOf b) b) exh ls
      { r with loaders := rest :: r.loaders }

/-- One call of `Sampler.sample_support` for a task (source lines 59-70):
it starts from an empty dict (`source_task_batch = {}`) and the task's
current exhaustion flag and loader states. -/
def sample_support (exh : Bool) (loaders : List (List Batch)) : SampleOut :=
  sampleSupportAux [] exh loaders

/-- Cut points `np.linspace(0, L, n + 1, dtype=int)` of the inner loop
(source line 271): point `i` is `i * L / n` truncated to an integer. -/
def batchIdx (L n : Nat) : List Nat :=
  (List.range (n + 1)).map (fun i => i * L / n)

/-- Number of `optimizer.step()` calls performed by
`MetaTrainer.inner_loop` (source lines 270-281): an outer loop of
`n_inner_steps` passes, each pass iterating over `batch_idx[:-1]` (one
slice per cut point except the last) and applying exactly one optimizer
update per slice, unconditionally — there is no emptiness check on the
slice. -/
def inner_loop_updates (nInnerSteps supportLen : Nat) : Nat :=
  (List.range nInnerSteps).foldl
    (fun acc _ =>
      ((batchIdx supportLen nInnerSteps).dropLast).foldl (fun a _ => a + 1) acc)
    0

theorem foldl_add_one {α : Type} (l : List α) (a : Nat) :
    l.foldl (fun a _ => a + 1) a = a + l.length := by
  induction l generalizing a with
  | nil => simp
  | cons x t ih => simp [List.foldl, ih]; omega

theorem batchIdx_dropLast_length (L n : Nat) :
    ((batchIdx L n).dropLast).length = n := by
  simp [batchIdx]

/-- Claim C1, amended: every call of the inner adaptation procedure
performs exactly `n_inner_steps * n_inner_steps` optimizer updates on the
adapted copy — the pass over the `n_inner_steps` contiguous slices of the
shuffled support batch (boundaries from evenly spacing `n_inner_steps + 1`
integer cut points over the batch length) is itself repeated
`n_inner_steps` times — independently of the support batch length; in
particular when `n_inner_steps` exceeds the number of support examples the
empty slices are not skipped, each still incurring one optimizer update. -/
theorem foldl_add_const {α : Type} (c : Nat) (l : List α) (a : Nat) :
    l.foldl (fun a _ => a + c) a = a + l.length * c := by
  induction l generalizing a with
  | nil => simp
  | cons x t ih => simp [List.foldl, ih]; ring

theorem c1_updates_squared (n L : Nat) : inner_loop_updates n L = n * n := by
  have hstep :
      (fun (acc : Nat) (_ : Nat) =>
        ((batchIdx L n).dropLast).foldl (fun a _ => a + 1) acc)
        = fun (acc : Nat) (_ : Nat) => acc + n := by
    funext acc i
    rw [foldl_add_one, batchIdx_dropLast_length]
  unfold inner_loop_updates
  rw [hstep, foldl_add_const]
  simp [Nat.mul_comm]

/-- Claim C1 counterexample: with `n_inner_steps = 2` and a combined
support batch of 4 examples, `inner_loop` applies 4 optimizer updates, not
the 2 the claim states. -/
theorem c1_counterexample :
    inner_loop_updates 2 4 = 4 ∧ inner_loop_updates 2 4 ≠ 2 := by decide

theorem mem_upsert {d : List (Nat × Batch)} {k : Nat} {v : Batch}
    {p : Nat × Batch} (h : p ∈ upsert d k v) : p ∈ d ∨ p = (k, v) := by
  induction d with
  | nil => simpa [upsert] using h
  | cons q t ih =>
      by_cases hk : q.1 = k
      · rw [show q = (q.1, q.2) from rfl] at h
        simp only [upsert, if_pos hk] at h
        rcases List.mem_cons.mp h with h1 | h1
        · exact Or.inr h1
        · exact Or.inl (List.mem_cons_of_mem _ h1)
      · rw [show q = (q.1, q.2) from rfl] at h
        simp only [upsert, if_neg hk] at h
        rcases List.mem_cons.mp h with h1 | h1
        · exact Or.inl (by simp [h1])
        · rcases ih h1 with h2 | h2
          · exact Or.inl (List.mem_cons_of_mem _ h2)
          · exact Or.inr h2

theorem sampleSupportAux_spec (ls : List (List Batch)) :
    ∀ (d : List (Nat × Batch)) (exh : Bool),
      (sampleSupportAux d exh ls).exhausted = (exh || ls.any List.isEmpty)
      ∧ (∀ p, p ∈ (sampleSupportAux d exh ls).dict →
          p ∈ d ∨ (labelOf p.2 = p.1 ∧ ∃ l ∈ ls, l.head? = some p.2))
      ∧ (sampleSupportAux d exh ls).loaders = ls.map List.tail := by
  induction ls with
  | nil =>
      intro d exh
      refine ⟨by simp [sampleSupportAux], ?_, by simp [sampleSupportAux]⟩
      intro p hp
      exact Or.inl hp
  | cons l t ih =>
      intro d exh
      cases l with
      | nil =>
          refine ⟨?_, ?_, ?_⟩
          · simp [sampleSupportAux, (ih d true).1]
          · intro p hp
            simp only [sampleSupportAux] at hp
            rcases (ih d true).2.1 p hp with h | ⟨h1, lx, hlx, hh⟩
            · exact Or.inl h
            · exact Or.inr ⟨h1, lx, List.mem_cons_of_mem _ hlx, hh⟩
          · simp [sampleSupportAux, (ih d true).2.2]
      | cons b rest =>
          refine ⟨?_, ?_, ?_⟩
          · simp [sampleSupportAux, (ih (upsert d (labelOf b) b) exh).1]
          · intro p hp
            simp only [sampleSupportAux] at hp
            rcases (ih (upsert d (labelOf b) b) exh).2.1 p hp with h | ⟨h1, lx, hlx, hh⟩
            · rcases mem_upsert h with h2 | h2
              · exact Or.inl h2
              · refine Or.inr ⟨?_, b :: rest, List.mem_cons_self _ _, ?_⟩
                · rw [h2]
                · simp [h2]
            · exact Or.inr ⟨h1, lx, List.mem_cons_of_mem _ hlx, hh⟩
          · simp [sampleSupportAux, (ih (upsert d (labelOf b) b) exh).2.2]

/-- Claim C7, amended: `sample_support` returns a mapping from class label
to exactly one mini-batch per call — every entry is a single batch drawn as
the head of one of the current class iterators, keyed by that batch's first
label (a fresh mapping each call; batches seen earlier in the same
split-cycle are never accumulated into lists) — each class iterator is
advanced by one step, and the call marks the split exhausted exactly when
some class iterator has no more batches, contributing nothing for that
iterator in that call. -/
theorem c7_sample_shape (exh : Bool) (loaders : List (List Batch)) :
    (sample_support exh loaders).exhausted = (exh || loaders.any List.isEmpty)
    ∧ (∀ k b, (k, b) ∈ (sample_support exh loaders).dict →
        labelOf b = k ∧ ∃ l ∈ loaders, l.head? = some b)
    ∧ (sample_support exh loaders).loaders = loaders.map List.tail := by
  refine ⟨(sampleSupportAux_spec loaders [] exh).1, ?_,
    (sampleSupportAux_spec loaders [] exh).2.2⟩
  intro k b hb
  rcases (sampleSupportAux_spec loaders [] exh).2.1 (k, b) hb with h | h
  · simp at h
  · exact h

/-- Support batch with a single one-token example of label 0, used as a
concrete input for the sampler theorems. -/
def bW1 : Batch :=
  { input_ids := [[1]], token_type_ids := [[0]], attention_mask := [[1]],
    labels := [0] }

/-- Second support batch of label 0, distinct from `bW1`. -/
def bW2 : Batch :=
  { input_ids := [[2]], token_type_ids := [[0]], attention_mask := [[1]],
    labels := [0] }

/-- Witness for `c7_sample_shape` at a concrete sampler state: one loader
holding `bW1` and one already-empty loader. -/
theorem c7_sample_shape_witness :
    labelOf bW1 = 0 ∧ ∃ l ∈ [[bW1], ([] : List Batch)], l.head? = some bW1 :=
  (c7_sample_shape false [[bW1], []]).2.1 0 bW1 (by decide)

/-- Claim C7 counterexample: label 0 is seen in the first call of the
split-cycle (batch `bW1`) and again in the second call; the second call
maps label 0 to the single latest batch `bW2`, not to a list of the
mini-batches of that label seen in the cycle. -/
theorem c7_counterexample :
    (sample_support false [[bW1, bW2]]).dict = [(0, bW1)]
    ∧ (sample_support (sample_support false [[bW1, bW2]]).exhausted
        (sample_support false [[bW1, bW2]]).loaders).dict = [(0, bW2)]
    ∧ bW2 ≠ bW1 := by decide

/-- Reserved padding token id (`PAD_ID` imported from data_utils; its
concrete value is irrelevant to the properties proved here). -/
def PAD_ID : Nat := 0

/-- Padding of one row to `max_shape` columns:
`torch.nn.functional.pad(tensor, (0, max_shape - tensor.shape[1]), value=PAD_ID)`
(source line 255) appends `max_shape - length` copies of the pad id on the
right. -/
def pad1 (row : List Nat) (maxLen : Nat) : List Nat :=
  row ++ List.replicate (maxLen - row.length) PAD_ID

/-- `MetaTrainer._pad` (source lines 254-256) applied to a whole field
tensor: every row is padded to `max_shape` columns. -/
def padTensor (t : List (List Nat)) (maxLen : Nat) : List (List Nat) :=
  t.map (fun r => pad1 r maxLen)

/-- Sequence length `tensor.shape[1]` of a batch's `input_ids` tensor
(source line 240); for a rectangular tensor this is any row's length. -/
def batchSeqLen (b : Batch) : Nat := (b.input_ids.headD []).length

/-- Maximum `input_ids` sequence length over the per-class batches:
`max_shape = max(shape)` (source lines 240-241). -/
def maxShape (bs : List Batch) : Nat := (bs.map batchSeqLen).foldl max 0

/-- Concatenation of one padded field over the per-class batches, in dict
iteration order: `torch.cat(tuple(self._pad(batch[c][field], max_shape)))`
(source lines 242-244). -/
def joinedField (f : Batch → List (List Nat)) (maxLen : Nat)
    (bs : List Batch) : List (List Nat) :=
  (bs.map (fun b => padTensor (f b) maxLen)).flatten

/-- Concatenation of the label fields, unpadded (source line 245). -/
def joinedLabels (bs : List Batch) : List Nat := (bs.map Batch.labels).flatten

/-- `MetaTrainer._extract` (source lines 239-252): pad each sequence field
to the maximum `input_ids` length, concatenate across the per-class
batches, and apply the single random permutation `shuffle_indices`
(modelled as the explicit argument `perm`, the value of
`torch.randperm(labels.shape[0])`) to all four fields by advanced
indexing. -/
def extract (perm : List Nat) (bs : List Batch) : Batch :=
  let M := maxShape bs
  let ii := joinedField Batch.input_ids M bs
  let tt := joinedField Batch.token_type_ids M bs
  let am := joinedField Batch.attention_mask M bs
  let lb := joinedLabels bs
  { input_ids := perm.map (fun i => ii.getD i []),
    token_type_ids := perm.map (fun i => tt.getD i []),
    attention_mask := perm.map (fun i => am.getD i []),
    labels := perm.map (fun i => lb.getD i 0) }

/-- Rectangularity of a field tensor: every row has the given length. -/
def rectOf (len : Nat) (t : List (List Nat)) : Prop :=
  ∀ r ∈ t, r.length = len

/-- Well-formedness of a loader batch, the tensor-shape contract of the
dataset collaborator: the three sequence fields are rectangular tensors of
a common row count and a common sequence length, and `labels` has one
entry per example. -/
def wfBatch (b : Batch) : Prop :=
  rectOf (batchSeqLen b) b.input_ids
  ∧ rectOf (batchSeqLen b) b.token_type_ids
  ∧ rectOf (batchSeqLen b) b.attention_mask
  ∧ b.token_type_ids.length = b.input_ids.length
  ∧ b.attention_mask.length = b.input_ids.length
  ∧ b.labels.length = b.input_ids.length

instance (len : Nat) (t : List (List Nat)) : Decidable (rectOf len t) :=
  List.decidableBAll _ t

instance (b : Batch) : Decidable (wfBatch b) := by
  unfold wfBatch; infer_instance

theorem foldl_max_init_le (l : List Nat) (a : Nat) : a ≤ l.foldl max a := by
  induction l generalizing a with
  | nil => simp
  | cons x t ih => exact le_trans (le_max_left a x) (ih (max a x))

theorem foldl_max_mem_le {l : List Nat} {x : Nat} (h : x ∈ l) (a : Nat) :
    x ≤ l.foldl max a := by
  induction l generalizing a with
  | nil => cases h
  | cons y t ih =>
      rcases List.mem_cons.mp h with h1 | h1
      · subst h1
        exact le_trans (le_max_right a x) (foldl_max_init_le t (max a x))
      · exact ih h1 (max a y)

theorem getD_mem {α : Type} {l : List α} {i : Nat} (d : α)
    (h : i < l.length) : l.getD i d ∈ l := by
  rw [List.getD_eq_getElem l d h]
  exact List.getElem_mem h

theorem map_getD_range {α : Type} (l : List α) (d : α) :
    (List.range l.length).map (fun i => l.getD i d) = l := by
  induction l with
  | nil => simp
  | cons x t ih =>
      rw [List.length_cons, List.range_succ_eq_map, List.map_cons,
        List.map_map]
      simp only [List.getD_cons_zero, Function.comp_def, List.getD_cons_succ]
      rw [ih]

theorem joinedField_length (f : Batch → List (List Nat)) (M : Nat)
    (bs : List Batch) :
    (joinedField f M bs).length = (bs.map (fun b => (f b).length)).sum := by
  simp [joinedField, padTensor, List.length_flatten, List.map_map,
    Function.comp_def]

theorem joinedLabels_length (bs : List Batch) :
    (joinedLabels bs).length = (bs.map (fun b => b.labels.length)).sum := by
  simp [joinedLabels, List.length_flatten, List.map_map, Function.comp_def]

theorem mem_joinedField {f : Batch → List (List Nat)} {M : Nat}
    {bs : List Batch} {r : List Nat} (h : r ∈ joinedField f M bs) :
    ∃ b ∈ bs, ∃ r0 ∈ f b, r = pad1 r0 M := by
  rcases List.mem_flatten.mp h with ⟨t, ht, hr⟩
  rcases List.mem_map.mp ht with ⟨b, hb, rfl⟩
  rcases List.mem_map.mp hr with ⟨r0, hr0, rfl⟩
  exact ⟨b, hb, r0, hr0, rfl⟩

theorem joinedField_row_length {f : Batch → List (List Nat)}
    {bs : List Batch} {r : List Nat}
    (hrect : ∀ b ∈ bs, rectOf (batchSeqLen b) (f b))
    (h : r ∈ joinedField f (maxShape bs) bs) : r.length = maxShape bs := by
  rcases mem_joinedField h with ⟨b, hb, r0, hr0, rfl⟩
  have hlen : r0.length = batchSeqLen b := hrect b hb r0 hr0
  have hle : batchSeqLen b ≤ maxShape bs :=
    foldl_max_mem_le (List.mem_map.mpr ⟨b, hb, rfl⟩) 0
  simp only [pad1, List.length_append, List.length_replicate, hlen]
  omega

/-- Common example count of the joined fields: under well-formedness every
per-example field has as many entries as `labels`. -/
theorem joinedField_length_eq_labels (f : Batch → List (List Nat))
    (bs : List Batch)
    (hcnt : ∀ b ∈ bs, (f b).length = b.labels.length) :
    (joinedField f (maxShape bs) bs).length = (joinedLabels bs).length := by
  rw [joinedField_length, joinedLabels_length]
  congr 1
  exact List.map_congr_left hcnt

/-- Claim C9: the combined batch built by `_extract` (pad, concatenate,
shuffle) has uniform sequence length equal to the maximum `input_ids`
length among the concatenated batches in all three sequence fields, the
single permutation is applied consistently to `input_ids` and `labels`
(rows and labels stay example-aligned), and the multiset of labels is
preserved. -/
theorem c9_extract (perm : List Nat) (bs : List Batch)
    (hwf : ∀ b ∈ bs, wfBatch b)
    (hperm : perm.Perm (List.range (joinedLabels bs).length))
    (_hne : bs ≠ []) :
    (∀ r ∈ (extract perm bs).input_ids, r.length = maxShape bs)
    ∧ (∀ r ∈ (extract perm bs).token_type_ids, r.length = maxShape bs)
    ∧ (∀ r ∈ (extract perm bs).attention_mask, r.length = maxShape bs)
    ∧ (extract perm bs).labels.Perm (joinedLabels bs)
    ∧ List.zip (extract perm bs).input_ids (extract perm bs).labels
        = perm.map (fun i =>
            ((joinedField Batch.input_ids (maxShape bs) bs).getD i [],
             (joinedLabels bs).getD i 0)) := by
  have hmem : ∀ i ∈ perm, i < (joinedLabels bs).length := by
    intro i hi
    have := hperm.mem_iff.mp hi
    simpa [List.mem_range] using this
  have hfield : ∀ (f : Batch → List (List Nat)),
      (∀ b ∈ bs, rectOf (batchSeqLen b) (f b)) →
      (∀ b ∈ bs, (f b).length = b.labels.length) →
      ∀ r ∈ perm.map
          (fun i => (joinedField f (maxShape bs) bs).getD i []),
        r.length = maxShape bs := by
    intro f hrect hcnt r hr
    rcases List.mem_map.mp hr with ⟨i, hi, rfl⟩
    have hlt : i < (joinedField f (maxShape bs) bs).length := by
      rw [joinedField_length_eq_labels f bs hcnt]
      exact hmem i hi
    exact joinedField_row_length hrect (getD_mem [] hlt)
  refine ⟨?_, ?_, ?_, ?_, ?_⟩
  · exact hfield Batch.input_ids (fun b hb => (hwf b hb).1)
      (fun b hb => by rw [(hwf b hb).2.2.2.2.2])
  · exact hfield Batch.token_type_ids (fun b hb => (hwf b hb).2.1)
      (fun b hb => by rw [(hwf b hb).2.2.2.1, (hwf b hb).2.2.2.2.2])
  · exact hfield Batch.attention_mask (fun b hb => (hwf b hb).2.2.1)
      (fun b hb => by rw [(hwf b hb).2.2.2.2.1, (hwf b hb).2.2.2.2.2])
  · have h1 : (extract perm bs).labels
        = perm.map (fun i => (joinedLabels bs).getD i 0) := rfl
    rw [h1]
    have h2 := hperm.map (fun i => (joinedLabels bs).getD i 0)
    rw [map_getD_range] at h2
    exact h2
  · exact List.zip_map' _ _ _

/-- Support batch for class 0 with one example of sequence length 2. -/
def bW3 : Batch :=
  { input_ids := [[5, 6]], token_type_ids := [[0, 0]],
    attention_mask := [[1, 1]], labels := [0] }

/-- Support batch for class 1 with one example of sequence length 3. -/
def bW4 : Batch :=
  { input_ids := [[7, 8, 9]], token_type_ids := [[0, 0, 0]],
    attention_mask := [[1, 1, 1]], labels := [1] }

/-- Witness for `c9_extract` on two one-example batches of lengths 2 and 3
with the swap permutation. -/
theorem c9_extract_witness :
    (∀ b ∈ [bW3, bW4], wfBatch b)
    ∧ ([1, 0] : List Nat).Perm (List.range (joinedLabels [bW3, bW4]).length)
    ∧ (extract [1, 0] [bW3, bW4]).labels.Perm (joinedLabels [bW3, bW4]) :=
  ⟨by decide, by decide,
    (c9_extract [1, 0] [bW3, bW4] (by decide) (by decide)
      (by decide)).2.2.2.1⟩

/-- Value of one floating-point tensor entry, with the IEEE special values
produced by division: `num x` an ordinary number, `pinf`/`ninf` the
infinities, `nan` not-a-number. -/
inductive TVal where
  | num (x : ℚ)
  | pinf
  | ninf
  | nan
deriving DecidableEq, Repr

/-- IEEE division of tensor entries as torch performs it: `x / 0` is NaN
when `x = 0` and a signed infinity otherwise; ordinary division
elsewhere. -/
def tdiv (x y : ℚ) : TVal :=
  if y = 0 then
    (if x = 0 then TVal.nan else if 0 < x then TVal.pinf else TVal.ninf)
  else TVal.num (x / y)

/-- Per-class value of `support_set[label]` inside
`init_prototype_parameters` (source lines 217-220): either a single batch
dict or a list of batch dicts, both handled via the `isinstance` check. -/
def BatchGroup : Type := Batch ⊕ List Batch

/-- Normalization performed by the `isinstance(batches, dict)` check
(source lines 219-220): a single dict becomes a one-element list. -/
def groupBatches : BatchGroup → List Batch
  | Sum.inl b => [b]
  | Sum.inr l => l

/-- Accumulated `class_samples[label]` (source line 224): the total number
of support examples over the class's batches. -/
def classExampleCount (bs : List Batch) : Nat :=
  (bs.map (fun b => b.input_ids.length)).sum

/-- Accumulated `prototypes[label]` before division (source lines
229-232): the sum over the class's batches of the summed first-token
encoder representations of their examples.  The encoder is the external
collaborator `encRow`, mapping one example row to its pooled
representation (hidden size 1 without loss of generality). -/
def classEncodingSum (encRow : List Nat → ℚ) (bs : List Batch) : ℚ :=
  (bs.map (fun b => (b.input_ids.map encRow).sum)).sum

/-- One class's prototype entry as computed by
`init_prototype_parameters` (source lines 216-234): a missing label in the
support mapping raises `KeyError` at `support_set[label]`; otherwise the
entry is the encoding sum divided by the example count — an IEEE division,
silently NaN when the count is zero. -/
def protoEntry (encRow : List Nat → ℚ) (support : Nat → Option BatchGroup)
    (label : Nat) : Except String TVal :=
  match support label with
  | none => Except.error "KeyError"
  | some g =>
      Except.ok
        (tdiv (classEncodingSum encRow (groupBatches g))
          ((classExampleCount (groupBatches g) : ℚ)))

/-- Loop of `init_prototype_parameters` over the class labels, stopping at
the first raised `KeyError`. -/
def protoEntriesLoop (encRow : List Nat → ℚ)
    (support : Nat → Option BatchGroup) : List Nat → Except String (List TVal)
  | [] => Except.ok []
  | l :: ls =>
      match protoEntry encRow support l with
      | Except.error e => Except.error e
      | Except.ok v =>
          match protoEntriesLoop encRow support ls with
          | Except.error e => Except.error e
          | Except.ok vs => Except.ok (v :: vs)

/-- Per-class prototype entries of `MetaTrainer.init_prototype_parameters`
(source lines 212-234): one entry per label in `0..n_classes`, or the
first `KeyError` raised. -/
def init_prototype_entries (encRow : List Nat → ℚ)
    (support : Nat → Option BatchGroup) (nClasses : Nat) :
    Except String (List TVal) :=
  protoEntriesLoop encRow support (List.range nClasses)

theorem protoEntriesLoop_error {encRow : List Nat → ℚ}
    {support : Nat → Option BatchGroup} {ls : List Nat}
    (h : ∃ l ∈ ls, support l = none) :
    ∃ msg, protoEntriesLoop encRow support ls = Except.error msg := by
  induction ls with
  | nil => rcases h with ⟨l, hl, _⟩; cases hl
  | cons a t ih =>
      rcases h with ⟨l, hl, hnone⟩
      rcases List.mem_cons.mp hl with rfl | hlt
      · exact ⟨"KeyError", by simp [protoEntriesLoop, protoEntry, hnone]⟩
      · cases ha : support a with
        | none =>
            exact ⟨"KeyError", by simp [protoEntriesLoop, protoEntry, ha]⟩
        | some g =>
            rcases ih ⟨l, hlt, hnone⟩ with ⟨msg, hmsg⟩
            exact ⟨msg, by simp [protoEntriesLoop, protoEntry, ha, hmsg]⟩

theorem classEncodingSum_of_count_zero {bs : List Batch}
    (h : classExampleCount bs = 0) (encRow : List Nat → ℚ) :
    classEncodingSum encRow bs = 0 := by
  apply List.sum_eq_zero
  intro x hx
  rcases List.mem_map.mp hx with ⟨b, hb, rfl⟩
  have hlen : b.input_ids.length = 0 := by
    have := (List.sum_eq_zero_iff).mp h
    exact this _ (List.mem_map.mpr ⟨b, hb, rfl⟩)
  rw [List.length_eq_zero.mp hlen]
  simp

/-- Claim C2, amended: during prototype initialization a class label
absent from the support mapping raises a `KeyError` that aborts the
episode, but a class that is present with zero support examples (an empty
batch list, or batches with zero rows) is not detected: its mean is
computed as an IEEE division by zero and yields a silent NaN prototype
entry instead of an explicit error. -/
theorem c2_prototype_zero_class (encRow : List Nat → ℚ)
    (support : Nat → Option BatchGroup) (n : Nat) :
    ((∃ l, l < n ∧ support l = none) →
      ∃ msg, init_prototype_entries encRow support n = Except.error msg)
    ∧ (∀ l g, support l = some g →
        classExampleCount (groupBatches g) = 0 →
        protoEntry encRow support l = Except.ok TVal.nan) := by
  constructor
  · intro ⟨l, hl, hnone⟩
    exact protoEntriesLoop_error ⟨l, List.mem_range.mpr hl, hnone⟩
  · intro l g hg hcnt
    have hsum := classEncodingSum_of_count_zero hcnt encRow
    simp [protoEntry, hg, hsum, hcnt, tdiv]

/-- Witness for `c2_prototype_zero_class`: a task with one class whose
label is missing from the support mapping, and a present class with an
empty batch list. -/
theorem c2_prototype_zero_class_witness :
    (∃ msg, init_prototype_entries (fun _ => 0) (fun _ => none) 1
      = Except.error msg)
    ∧ protoEntry (fun _ => 0) (fun _ => some (Sum.inr [])) 0
        = Except.ok TVal.nan :=
  ⟨(c2_prototype_zero_class (fun _ => 0) (fun _ => none) 1).1
      ⟨0, Nat.zero_lt_one, rfl⟩,
    (c2_prototype_zero_class (fun _ => 0) (fun _ => some (Sum.inr [])) 1).2
      0 (Sum.inr []) rfl rfl⟩

/-- Claim C2 counterexample: with one class whose support entry is an
empty batch list — a class with zero support examples — prototype
initialization does not surface an error: it returns successfully with a
NaN prototype entry produced by the silent division `0 / 0`. -/
theorem c2_counterexample :
    init_prototype_entries (fun _ => 0) (fun _ => some (Sum.inr [])) 1
      = Except.ok [TVal.nan]
    ∧ classExampleCount (groupBatches (Sum.inr [])) = 0 := by
  constructor
  · simp [init_prototype_entries, List.range_succ, protoEntriesLoop,
      protoEntry, groupBatches, classEncodingSum, classExampleCount, tdiv]
  · rfl

/-- Value of one entry of the normalized prototype matrix
`prototypes.div(norm)` (source lines 235-236).  The L2 norm is the square
root of the squared sum, which is irrational in general, so a finite entry
is represented exactly as `num x nsq`, denoting `x / Real.sqrt nsq` with
`nsq` the row's squared norm; the IEEE special values cover the
division-by-zero cases (for a zero norm, `x / 0`). -/
inductive NEntry where
  | num (x : ℚ) (nsq : ℚ)
  | pinf
  | ninf
  | nan
deriving DecidableEq, Repr

/-- Squared L2 norm of a prototype row; the row's norm
`prototypes.norm(p=2, dim=1)` (source line 235) is its square root, and it
is zero exactly when this is zero. -/
def sumSq (row : List ℚ) : ℚ := (row.map (fun x => x * x)).sum

/-- IEEE division of one row entry by the row's (possibly zero) L2 norm,
as `prototypes.div(norm)` performs it entrywise (source line 236): a zero
norm is divided by regardless — `0 / 0` is NaN, `x / 0` a signed
infinity — and a nonzero norm yields the finite entry `num x nsq`. -/
def divByNorm (x nsq : ℚ) : NEntry :=
  if nsq = 0 then
    (if x = 0 then NEntry.nan else if 0 < x then NEntry.pinf else NEntry.ninf)
  else NEntry.num x nsq

/-- Row normalization installed as `model.gamma` (source line 236): every
entry of the row is divided by the row's L2 norm, with no guard against a
zero norm. -/
def normalizeRow (row : List ℚ) : List NEntry :=
  row.map (fun x => divByNorm x (sumSq row))

/-- Squared value of a normalized entry, when it is an ordinary number:
`(x / sqrt nsq) ^ 2 = x * x / nsq`. -/
def entrySqVal : NEntry → Option ℚ
  | NEntry.num x nsq => some (x * x / nsq)
  | _ => none

/-- Squared values of a whole normalized row, defined only when every
entry is an ordinary number. -/
def rowSqVals : List NEntry → Option (List ℚ)
  | [] => some []
  | e :: t =>
      match entrySqVal e, rowSqVals t with
      | some q, some qs => some (q :: qs)
      | _, _ => none

/-- Squared L2 norm of the installed (normalized) row, `none` when some
entry is NaN or infinite. -/
def rowNormSq (row : List ℚ) : Option ℚ :=
  (rowSqVals (normalizeRow row)).map List.sum

theorem rowSqVals_num (r : List ℚ) (s : ℚ) :
    rowSqVals (r.map (fun x => NEntry.num x s))
      = some (r.map (fun x => x * x / s)) := by
  induction r with
  | nil => rfl
  | cons a t ih => simp [rowSqVals, entrySqVal, ih]

theorem sum_map_div (r : List ℚ) (s : ℚ) :
    (r.map (fun x => x * x / s)).sum = (r.map (fun x => x * x)).sum / s := by
  induction r with
  | nil => simp
  | cons a t ih => simp [ih, add_div]

theorem sumSq_nonneg (row : List ℚ) : 0 ≤ sumSq row := by
  induction row with
  | nil => simp [sumSq]
  | cons a t ih =>
      simp only [sumSq, List.map_cons, List.sum_cons]
      exact add_nonneg (mul_self_nonneg a) ih

theorem sumSq_eq_zero {row : List ℚ} (h : sumSq row = 0) :
    ∀ x ∈ row, x = 0 := by
  induction row with
  | nil => intro x hx; cases hx
  | cons a t ih =>
      have hsplit : a * a + sumSq t = 0 := by
        simpa [sumSq] using h
      have ha2 : a * a = 0 := by
        have h1 := mul_self_nonneg a
        have h2 := sumSq_nonneg t
        linarith
      have ht : sumSq t = 0 := by linarith [mul_self_nonneg a]
      intro x hx
      rcases List.mem_cons.mp hx with rfl | hxt
      · exact mul_self_eq_zero.mp ha2
      · exact ih ht x hxt

/-- Claim C5, amended: after prototype normalization a row whose L2 norm
is nonzero has exactly unit squared L2 norm (hence unit norm, within any
tolerance); but a row whose norm is zero is not left unnormalized — the
code divides by the zero norm anyway, turning every entry of the row into
NaN. -/
theorem c5_unit_norm_rows (row : List ℚ) :
    (sumSq row ≠ 0 → rowNormSq row = some 1)
    ∧ (sumSq row = 0 → normalizeRow row = row.map (fun _ => NEntry.nan)) := by
  constructor
  · intro hs
    have h1 : normalizeRow row = row.map (fun x => NEntry.num x (sumSq row)) := by
      apply List.map_congr_left
      intro x _
      simp [divByNorm, hs]
    rw [rowNormSq, h1, rowSqVals_num, Option.map_some', sum_map_div]
    have : (row.map (fun x => x * x)).sum = sumSq row := rfl
    rw [this, div_self hs]
  · intro hs
    apply List.map_congr_left
    intro x hx
    have hx0 : x = 0 := sumSq_eq_zero hs x hx
    simp [divByNorm, hs, hx0]

/-- Witness for `c5_unit_norm_rows` on the row `[3, 4]`: its squared norm
25 is nonzero and the installed row has squared norm exactly 1. -/
theorem c5_unit_norm_rows_witness :
    sumSq [(3 : ℚ), 4] ≠ 0 ∧ rowNormSq [(3 : ℚ), 4] = some 1 :=
  ⟨by norm_num [sumSq],
    (c5_unit_norm_rows [(3 : ℚ), 4]).1 (by norm_num [sumSq])⟩

/-- Claim C5 counterexample: a class whose mean support encoding is the
zero vector (possible with one support example) gives a prototype row of
zero norm; the code divides by that zero norm anyway, so the installed row
is all-NaN — neither unit-norm nor left unnormalized. -/
theorem c5_counterexample :
    normalizeRow [(0 : ℚ), 0] = [NEntry.nan, NEntry.nan]
    ∧ rowNormSq [(0 : ℚ), 0] = none
    ∧ [NEntry.nan, NEntry.nan] ≠ [NEntry.num 0 0, NEntry.num 0 0] := by
  refine ⟨?_, ?_, by decide⟩
  · simp [normalizeRow, sumSq, divByNorm]
  · simp [rowNormSq, normalizeRow, sumSq, divByNorm, rowSqVals, entrySqVal]

/-- Whether the pattern occurs at the start of the text (character
lists). -/
def leadsWith : List Char → List Char → Bool
  | [], _ => true
  | _ :: _, [] => false
  | a :: as, b :: bs => a == b && leadsWith as bs

/-- Whether the pattern occurs anywhere in the text (character lists). -/
def containsSub (pat : List Char) : List Char → Bool
  | [] => leadsWith pat []
  | c :: rest => leadsWith pat (c :: rest) || containsSub pat rest

/-- Test of the name-based pooling exclusion `if 'pooler' in name` (source
line 314): true when the substring occurs in the parameter name. -/
def containsPooler (name : String) : Bool :=
  containsSub "pooler".data name.data

/-- Python addition of two autograd results
`grads_inner_model[i] + grads_outer_model[i]` (source lines 317, 319):
with `allow_unused=True` either operand can be `None` (a parameter
unreferenced by the loss graph), and adding `None` to a tensor raises
`TypeError`. -/
def addGrads : Option ℚ → Option ℚ → Except String ℚ
  | some a, some b => Except.ok (a + b)
  | _, _ => Except.error "TypeError"

/-- Accumulation loop of `MetaTrainer.calc_validation_grads` (source lines
313-319): walk the shared model's named parameters (modelled as aligned
with the two gradient sequences, one slot per parameter) and, unless the
name contains `pooler`, set the parameter's gradient buffer to
`gradInner + gradOuter` when it is `None` and add the sum otherwise.
Indexing past the end of a gradient tuple raises `IndexError`. -/
def calc_validation_grads_accum :
    List (String × Option ℚ) → List (Option ℚ) → List (Option ℚ) →
    Except String (List (String × Option ℚ))
  | [], _, _ => Except.ok []
  | (name, g) :: ps, gi, go =>
      match gi, go with
      | i :: gis, o :: gos =>
          if containsPooler name then
            match calc_validation_grads_accum ps gis gos with
            | Except.error e => Except.error e
            | Except.ok r => Except.ok ((name, g) :: r)
          else
            match addGrads i o with
            | Except.error e => Except.error e
            | Except.ok s =>
                match calc_validation_grads_accum ps gis gos with
                | Except.error e => Except.error e
                | Except.ok r =>
                    match g with
                    | none => Except.ok ((name, some s) :: r)
                    | some v => Except.ok ((name, some (v + s)) :: r)
      | _, _ => Except.error "IndexError"

/-- Claim C4: the outer gradient combination does accumulate
(initialize-or-add) `gradInner + gradOuter` for non-pooler encoder
parameters and skips pooler-named ones, but a null gradient is NOT treated
as a zero contribution: for a non-pooler parameter unreferenced by the
loss graph (here the outer autograd call returned `None`) the unguarded
addition raises `TypeError` instead. -/
theorem c4_none_grad_raises :
    calc_validation_grads_accum [("encoder.layer.0.weight", none)]
        [some 1] [none]
      = Except.error "TypeError"
    ∧ calc_validation_grads_accum [("encoder.layer.0.weight", some 2)]
        [some 1] [some 3]
      = Except.ok [("encoder.layer.0.weight", some 6)]
    ∧ calc_validation_grads_accum [("encoder.pooler.dense.weight", none)]
        [none] [none]
      = Except.ok [("encoder.pooler.dense.weight", none)] := by
  have h1 : containsPooler "encoder.layer.0.weight" = false := rfl
  have h2 : containsPooler "encoder.pooler.dense.weight" = true := rfl
  refine ⟨?_, ?_, ?_⟩
  · simp [calc_validation_grads_accum, h1, addGrads]
  · simp [calc_validation_grads_accum, h1, addGrads]
    norm_num
  · simp [calc_validation_grads_accum, h2]

/-- Leaf dependencies of a tensor's autograd graph: the ids of the leaf
parameters (requiring grad) that a backward pass from this tensor reaches.
`backward` writes the `.grad` buffer of every such leaf. -/
structure AModel where
  encIds : List Nat
  gammaDeps : List Nat
  phiIds : List Nat
deriving DecidableEq, Repr

/-- Gamma installation of `init_prototype_parameters` (source lines
229-236): the prototype encodings are produced by
`self.outer_model.encoder` — the SHARED encoder — under gradient tracking
(no `torch.no_grad()`, no `.detach()`), so the installed `model.gamma`
carries an autograd graph whose leaves are the shared encoder's
parameters. -/
def init_prototype_gamma (sharedEncIds : List Nat) (m : AModel) : AModel :=
  { m with gammaDeps := sharedEncIds }

/-- Modelled from the spec: `models.Classifier.forward` (models.py is not
under src/) computes logits from the copy's encoder representation and its
classification head — the installed prototype weight `gamma` and the
output parameters `phi` (spec sections 4.2 and 6) — so the inner-loop loss
depends on the copy's encoder parameters, on `gamma`'s graph, and on
`phi`. -/
def forwardDeps (m : AModel) : List Nat :=
  m.encIds ++ m.gammaDeps ++ m.phiIds

/-- Effect of `loss.backward()` on the set of written `.grad` buffers
(source line 279): backward writes the gradient buffer of every leaf
parameter reachable from the loss. -/
def backwardWrites (written lossDeps : List Nat) : List Nat :=
  written ++ lossDeps

/-- Gradient buffers written by the first inner-loop slice's
`loss.backward()` (source lines 277-279), starting from the given set of
already-written buffers. -/
def inner_loop_first_backward (m : AModel) (written : List Nat) : List Nat :=
  backwardWrites written (forwardDeps m)

/-- Claim C3 evaluation at the failing input: shared encoder parameter 0,
adapted copy with its own encoder parameter 1 and head parameter 2.  After
prototype initialization the very first inner-loop backward writes the
gradient buffer of the SHARED parameter 0 — which is not a parameter of
the adapted copy — before the explicit gradient-combination step ever
runs, contradicting the claimed frame property. -/
theorem c3_shared_grad_leak :
    (0 : Nat) ∈ inner_loop_first_backward
        (init_prototype_gamma [0]
          { encIds := [1], gammaDeps := [], phiIds := [2] }) []
    ∧ (0 : Nat) ∉
        ({ encIds := [1], gammaDeps := [], phiIds := [2] : AModel }).encIds
          ++ ({ encIds := [1], gammaDeps := [], phiIds := [2] : AModel }).phiIds := by
  decide

/-- Parameter state of the validation copy, one representative parameter
per component: `enc` the encoder, `gamma` the prototype weight, `phi` the
output parameters. -/
structure VModel where
  enc : Int
  gamma : Int
  phi : Int
deriving DecidableEq, Repr

/-- Head reset performed at the top of each validation trial (source lines
335-336): `init_prototype_parameters` recomputes `gamma` from the SHARED
encoder and the fixed support sample — hence the same value `proto` every
trial — and `init_phi` re-initializes `phi` to `phi0`.  The encoder of the
copy is not touched. -/
def resetHead (proto phi0 : Int) (m : VModel) : VModel :=
  { m with gamma := proto, phi := phi0 }

/-- Model state entering trial `k`'s `inner_loop` in `validate` (source
lines 327-337): the shared model is deep-copied once (`m0`) before the
loop; each iteration resets the head and then runs the inner loop `adapt`
in place on the same copy. -/
def trialStart (adapt : VModel → VModel) (proto phi0 : Int) (m0 : VModel) :
    Nat → VModel
  | 0 => resetHead proto phi0 m0
  | k + 1 => resetHead proto phi0 (adapt (trialStart adapt proto phi0 m0 k))

/-- Claim C6, amended: in `validate` every trial starts its inner loop
from a freshly reset head — `gamma` recomputed from the shared encoder on
the same support sample and `phi` re-initialized, hence identical at every
trial — but the encoder parameters are NOT reset: trial `k + 1` enters the
inner loop with the encoder state left by trial `k`'s adaptation, since
the shared model is deep-copied only once before the trial loop. -/
theorem c6_trial_head_reset (adapt : VModel → VModel) (proto phi0 : Int)
    (m0 : VModel) (k : Nat) :
    (trialStart adapt proto phi0 m0 k).gamma = proto
    ∧ (trialStart adapt proto phi0 m0 k).phi = phi0
    ∧ (trialStart adapt proto phi0 m0 (k + 1)).enc
        = (adapt (trialStart adapt proto phi0 m0 k)).enc := by
  cases k <;> simp [trialStart, resetHead]

/-- Claim C6 counterexample: with a shared-model copy whose encoder state
is 0 and an inner loop that moves the encoder by +1 (its optimizer is
built over ALL of the copy's parameters, encoder included), the second
trial enters adaptation with encoder state 1 — the first trial's adapted
encoder — not the shared model's state 0. -/
theorem c6_counterexample :
    (trialStart (fun m => { m with enc := m.enc + 1 }) 5 7
        { enc := 0, gamma := 9, phi := 9 } 1).enc = 1
    ∧ (1 : Int) ≠ 0 := by decide

/-- Operations of one training epoch that touch shared state, in program
order (source lines 169-196): `zeroGrad` is
`self.outer_optimizer.zero_grad()`, `episodeStep i` the i-th episode
(sampling, adaptation and gradient accumulation), `validateOp` the
periodic validation (including the checkpoint decision), `optStep` the
single `self.outer_optimizer.step()`, `schedStep` the scheduler step and
`dumpOp` the metrics flush. -/
inductive TrOp where
  | zeroGrad
  | episodeStep (i : Nat)
  | validateOp
  | optStep
  | schedStep
  | dumpOp
deriving DecidableEq, Repr

/-- Whether an operation writes the shared model's parameters or the
shared optimizer's internal moment buffers: only the optimizer step does —
episodes only accumulate into gradient buffers, validation runs on a deep
copy, and the scheduler only adjusts the learning rate. -/
def writesSharedParams : TrOp → Bool
  | TrOp.optStep => true
  | _ => false

/-- Episode recognizer. -/
def isEpisode : TrOp → Bool
  | TrOp.episodeStep _ => true
  | _ => false

/-- Shared-state trace of one epoch of `MetaTrainer.train` (source lines
169-196): one `zero_grad` first, then all episodes, then (on the test
cadence) validation, then exactly one optimizer step, one scheduler step
and the metrics flush. -/
def epochTrace (numEpisodes : Nat) (doTest : Bool) : List TrOp :=
  [TrOp.zeroGrad] ++ (List.range numEpisodes).map TrOp.episodeStep
    ++ (if doTest then [TrOp.validateOp] else [])
    ++ [TrOp.optStep, TrOp.schedStep, TrOp.dumpOp]

/-- Shared-state trace of `MetaTrainer.train` (source lines 167-198): the
epochs in order, epoch `e` validating iff `e % test_every == 0`. -/
def trainTrace (nEpochs numEpisodes testEvery : Nat) : List TrOp :=
  (List.range nEpochs).flatMap
    (fun e => epochTrace numEpisodes (e % testEvery == 0))

theorem count_zeroGrad_map_episodes (l : List Nat) :
    (l.map TrOp.episodeStep).count TrOp.zeroGrad = 0 := by
  rw [List.count_eq_zero]
  intro h
  rcases List.mem_map.mp h with ⟨i, _, hi⟩
  cases hi

theorem filter_writes_map_episodes (l : List Nat) :
    (l.map TrOp.episodeStep).filter writesSharedParams = [] := by
  induction l with
  | nil => rfl
  | cons x t ih => simp [List.filter, writesSharedParams, ih]

theorem beq_episode_optStep (i : Nat) :
    (TrOp.episodeStep i == TrOp.optStep) = false := rfl

theorem dropWhile_map_episodes (l : List Nat) (rest : List TrOp) :
    (l.map TrOp.episodeStep ++ rest).dropWhile
        (fun o => !(o == TrOp.optStep))
      = rest.dropWhile (fun o => !(o == TrOp.optStep)) := by
  induction l with
  | nil => rfl
  | cons x t ih =>
      rw [List.map_cons, List.cons_append, List.dropWhile_cons]
      simp only [beq_episode_optStep, Bool.not_false, if_true]
      exact ih

/-- Claim C8: in every epoch of `train` the shared optimizer's gradient
buffers are zeroed exactly once, at the very start of the epoch (never per
episode); the shared model's parameters and the optimizer's internal
buffers are written by exactly one operation of the epoch — the single
optimizer step — and that step comes after every episode of the epoch, so
no episode observes a partially updated shared model; the full training
trace is precisely these epoch traces in sequence. -/
theorem c8_epoch_structure (n : Nat) (t : Bool) :
    (epochTrace n t).head? = some TrOp.zeroGrad
    ∧ (epochTrace n t).count TrOp.zeroGrad = 1
    ∧ (epochTrace n t).filter writesSharedParams = [TrOp.optStep]
    ∧ ((epochTrace n t).dropWhile (fun o => !(o == TrOp.optStep))).all
        (fun o => !isEpisode o) = true
    ∧ (∀ nEpochs testEvery, trainTrace nEpochs n testEvery
        = ((List.range nEpochs).map
            (fun e => epochTrace n (e % testEvery == 0))).flatten) := by
  refine ⟨rfl, ?_, ?_, ?_, ?_⟩
  · cases t <;>
      simp [epochTrace, List.count_append, count_zeroGrad_map_episodes,
        List.count_cons, List.count_nil]
  · cases t <;>
      simp [epochTrace, List.filter_append, filter_writes_map_episodes,
        List.filter, writesSharedParams]
  · have h1 : (epochTrace n t) = TrOp.zeroGrad ::
        ((List.range n).map TrOp.episodeStep
          ++ ((if t then [TrOp.validateOp] else [])
            ++ [TrOp.optStep, TrOp.schedStep, TrOp.dumpOp])) := by
      simp [epochTrace]
    rw [h1, List.dropWhile_cons]
    simp only [show ((!(TrOp.zeroGrad == TrOp.optStep)) = true) from rfl,
      if_true]
    rw [dropWhile_map_episodes]
    cases t <;> decide
  · intro nEpochs testEvery
    simp [trainTrace, List.flatMap_def]

/-- Ids of the shared model's parameters, split by sub-module: the encoder
parameters and the two classification-head parameters (the prototype
weight `gamma` and the output projection `phi`), which belong to disjoint
sub-modules. -/
structure ModelParams where
  encoderIds : List Nat
  gammaId : Nat
  phiId : Nat
deriving DecidableEq, Repr

/-- Parameters registered with the shared optimizer at trainer
construction: `AdamW(self.outer_model.encoder.parameters(), ...)` (source
lines 140-141) registers exactly the encoder's parameters — the scheduler
of line 142 wraps this same optimizer. -/
def outer_optimizer_registered (m : ModelParams) : List Nat := m.encoderIds

/-- One `optimizer.step()` of the external optimizer collaborator: it
applies its update rule to exactly the parameters registered with it and
leaves every other parameter untouched. -/
def optStepOn (registered : List Nat) (upd : Nat → Int → Int)
    (theta : Nat → Int) : Nat → Int :=
  fun p => if p ∈ registered then upd p (theta p) else theta p

/-- The per-epoch `self.outer_optimizer.step()` calls of `train` (source
line 194) over a whole run: one (arbitrary, gradient-dependent) update
rule per epoch, applied by the shared optimizer to its registered
parameters. -/
def run_outer_steps (m : ModelParams) (upds : List (Nat → Int → Int))
    (theta : Nat → Int) : Nat → Int :=
  upds.foldl
    (fun th u => optStepOn (outer_optimizer_registered m) u th) theta

/-- Claim C10: the shared optimizer is constructed over the encoder's
parameters only, so the outer optimizer steps of `train` never modify the
classification-head parameters (the prototype weight and the output
projection) in any epoch, whatever the per-epoch update rules are. -/
theorem c10_head_params_frozen (m : ModelParams)
    (upds : List (Nat → Int → Int)) (theta : Nat → Int)
    (hg : m.gammaId ∉ m.encoderIds) (hp : m.phiId ∉ m.encoderIds) :
    run_outer_steps m upds theta m.gammaId = theta m.gammaId
    ∧ run_outer_steps m upds theta m.phiId = theta m.phiId := by
  have key : ∀ (p : Nat), p ∉ m.encoderIds →
      ∀ (us : List (Nat → Int → Int)) (th : Nat → Int),
        run_outer_steps m us th p = th p := by
    intro p hpn us
    induction us with
    | nil => intro th; rfl
    | cons u t ih =>
        intro th
        have hstep : run_outer_steps m (u :: t) th p
            = run_outer_steps m t
                (optStepOn (outer_optimizer_registered m) u th) p := rfl
        rw [hstep, ih]
        simp [optStepOn, outer_optimizer_registered, hpn]
  exact ⟨key _ hg upds theta, key _ hp upds theta⟩

/-- Witness for `c10_head_params_frozen`: encoder parameters 0 and 1, head
parameters 2 and 3, one epoch whose update rule increments every
registered parameter; the head parameters keep their initial value 0. -/
theorem c10_head_params_frozen_witness :
    ((2 : Nat) ∉ [0, 1] ∧ (3 : Nat) ∉ [0, 1])
    ∧ run_outer_steps
        { encoderIds := [0, 1], gammaId := 2, phiId := 3 }
        [fun _ x => x + 1] (fun _ => 0) 2 = 0
    ∧ run_outer_steps
        { encoderIds := [0, 1], gammaId := 2, phiId := 3 }
        [fun _ x => x + 1] (fun _ => 0) 3 = 0 :=
  ⟨⟨by decide, by decide⟩,
    (c10_head_params_frozen
      { encoderIds := [0, 1], gammaId := 2, phiId := 3 }
      [fun _ x => x + 1] (fun _ => 0) (by decide) (by decide)).1,
    (c10_head_params_frozen
      { encoderIds := [0, 1], gammaId := 2, phiId := 3 }
      [fun _ x => x + 1] (fun _ => 0) (by decide) (by decide)).2⟩

end ATCS
